import Mathlib

/-!
# Verification of `local_utils/data_utils.py` (CRNN_Tensorflow)

Shallow embedding of the label codec of `src/local_utils/data_utils.py`:
`FeatureIO.char_to_int`, `FeatureIO.int_to_char`, `FeatureIO.encode_labels`,
`FeatureIO.sparse_tensor_to_str` and `TextFeatureWriter.write_features`.

Python dictionaries are modelled as association lists with unique keys,
looked up with `List.lookup` and iterated in list order (Python dicts
iterate in insertion order).  The `ord_map` dictionary's keys are decimal
integer strings (the sequential character indices); the embedding carries
them as the integers they denote, so Python's `int(k)` on a key and its
string-keyed lookups `ord_map[str(tmp)]` become the identity and an
integer-keyed lookup.  Its values (stringified ordinals) are kept as raw
strings, as is the whole `char_dict`, because `int_to_char` compares them
as strings against `'1'`.  A Python value that may be an `int` or a `str`
(the argument of `int_to_char`) is modelled by the sum type `PyVal`.
-/

/-- A Python value that is either an integer or a string.  `int_to_char`
distinguishes the two: `number == 1` is true only for numeric values and
`number == '1'` only for the string. -/
inductive PyVal : Type where
  | int (n : Int)
  | str (s : String)
deriving DecidableEq, Repr

/-- Python `str(x)` for a `PyVal`: decimal rendering of an integer, the
string itself otherwise. -/
def pyStr : PyVal → String
  | .int n => toString n
  | .str s => s

/-- The Python exceptions raised by the embedded code. -/
inductive Err : Type where
  | keyError        -- dict lookup miss / `char_to_int`'s explicit KeyError
  | indexError      -- numpy out-of-bounds index / `values[i]` past the end
  | assertionError  -- failed `assert`
  | valueError      -- e.g. `max()` of an empty sequence
deriving DecidableEq, Repr

/-- Python's `char.lower()` on a single character.  Modelled by Lean's
`Char.toLower`; the proofs below rely only on it being a deterministic,
idempotent character-to-character map. -/
def pyLower (c : Char) : Char := c.toLower

/-- The `ord_map` dictionary: sequential index (integer-valued decimal
string key, carried as the integer) to stringified ordinal. -/
abbrev OrdMap : Type := List (Int × String)

/-- The `char_dict` dictionary: string key to character (a one-character
string in a well-formed dictionary, though nothing in the code checks). -/
abbrev CharDict : Type := List (String × String)

/-- `FeatureIO.char_to_int` (data_utils.py lines 88-99):
`temp = ord(char.lower())`; scan `ord_map.items()` in order for the first
entry whose value equals `str(temp)`; return `int(k)` for its key `k`
(the key is carried as an integer, so `int(k)` is the key itself); raise
`KeyError` when no entry matches. -/
def char_to_int (ord_map : OrdMap) (c : Char) : Except Err Int :=
  let temp : Nat := (pyLower c).toNat
  match ord_map.find? (fun kv => kv.2 == toString temp) with
  | some kv => .ok kv.1
  | none => .error .keyError

/-- `FeatureIO.int_to_char` (data_utils.py lines 104-114):
`if number == 1 or number == '1': return '\x00'` else
`return char_dict[str(number)]`. -/
def int_to_char (char_dict : CharDict) (number : PyVal) : Except Err String :=
  if number = .int 1 ∨ number = .str "1" then .ok "\x00"
  else
    match char_dict.lookup (pyStr number) with
    | some s => .ok s
    | none => .error .keyError

/-- `FeatureIO.encode_labels` (data_utils.py lines 116-128): encode every
character of every label with `char_to_int`, collecting the original
labels' lengths. -/
def encode_labels (ord_map : OrdMap) (labels : List (List Char)) :
    Except Err (List (List Int) × List Nat) := do
  let encoded ← labels.mapM (fun label => label.mapM (char_to_int ord_map))
  return (encoded, labels.map List.length)

/-- numpy index resolution for one axis of length `dim`: a negative index
`i` addresses `dim + i`; the access succeeds iff the resolved position is
in `[0, dim)`. -/
def npResolve (dim : Nat) (i : Int) : Option Nat :=
  if i < 0 then
    let j := (dim : Int) + i
    if 0 ≤ j then some j.toNat else none
  else if i < (dim : Int) then some i.toNat else none

/-- Overwrite cell `(r, c)` of a grid (row-major list of rows). -/
def setCell (g : List (List PyVal)) (r c : Nat) (v : PyVal) : List (List PyVal) :=
  g.set r ((g.getD r []).set c v)

/-- The fill loop of `sparse_tensor_to_str` (data_utils.py lines 144-145):
`for i, index in enumerate(indices): number_lists[index[0], index[1]] = values[i]`.
`vals` is the already-translated `values` array (strings); running past its
end is `values[i]` raising `IndexError`, an unresolvable coordinate is
numpy's `IndexError`. -/
def fillGrid (rows cols : Nat) (g : List (List PyVal)) :
    List (Int × Int) → List String → Except Err (List (List PyVal))
  | [], _ => .ok g
  | _ :: _, [] => .error .indexError
  | (r, c) :: rest, v :: vrest =>
    match npResolve rows r, npResolve cols c with
    | some r', some c' => fillGrid rows cols (setCell g r' c' (.str v)) rest vrest
    | _, _ => .error .indexError

/-- Line 136 of data_utils.py:
`values = np.array([self.__ord_map[str(tmp)] for tmp in values])`. -/
def translateValues (ord_map : OrdMap) (values : List Int) : Except Err (List String) :=
  values.mapM (fun v =>
    match ord_map.lookup v with
    | some s => .ok s
    | none => .error .keyError)

/-- Join a decoded row, lines 151-152 of data_utils.py:
`''.join(c for c in str_list if c != '\x00')`. -/
def joinSkipNull (l : List String) : String :=
  String.join (l.filter (fun c => c != "\x00"))

/-- `FeatureIO.sparse_tensor_to_str` (data_utils.py lines 130-153) on a
`SparseCode` triple `(indices, values, dense_shape = (rows, cols))`:
translate `values` through `ord_map` (the translated array has numpy
string dtype when non-empty, so `np.ones` fills the grid with the string
`'1'`; an empty `values` list gives a float array whose fill `1.0`
compares equal to `1` in `int_to_char`, modelled as `PyVal.int 1`), write
each translated value at its coordinate, then map every cell through
`int_to_char` and join each row skipping `'\x00'`. -/
def sparse_tensor_to_str (ord_map : OrdMap) (char_dict : CharDict)
    (indices : List (Int × Int)) (values : List Int) (rows cols : Nat) :
    Except Err (List String) := do
  let translated ← translateValues ord_map values
  let fillVal : PyVal := if translated.isEmpty then .int 1 else .str "1"
  let g0 := List.replicate rows (List.replicate cols fillVal)
  let g ← fillGrid rows cols g0 indices translated
  let strLists ← g.mapM (fun row => row.mapM (fun v => int_to_char char_dict v))
  return strLists.map joinSkipNull

/-- Decoding a flat sequence of encoded indices: the per-row pipeline of
`sparse_tensor_to_str` applied to the written cells — translate each
index through `ord_map` (line 136), map `int_to_char` over the resulting
strings (line 148) and join, dropping `'\x00'` (lines 151-152). -/
def decode_indices (ord_map : OrdMap) (char_dict : CharDict) (idxs : List Int) :
    Except Err String := do
  let translated ← translateValues ord_map idxs
  let chars ← translated.mapM (fun s => int_to_char char_dict (.str s))
  return joinSkipNull chars

/-- One record emitted by `TextFeatureWriter.write_features`:
the four features `labels`, `images`, `imagenames`, `lengths`. -/
structure TFRecord : Type where
  labels : List Int
  image : List Nat
  imagename : String
  length : Nat
deriving DecidableEq, Repr

/-- Zip the four aligned lists into records, one per image, as the writer
loop does (`for index, image in enumerate(images)` with `labels[index]`,
`imagenames[index]`, `lengths[index]`). -/
def zipRecords : List (List Int) → List (List Nat) → List String → List Nat → List TFRecord
  | l :: ls, i :: is, n :: ns, len :: lens =>
    ⟨l, i, n, len⟩ :: zipRecords ls is ns lens
  | _, _, _, _ => []

/-- `TextFeatureWriter.write_features` (data_utils.py lines 164-195),
pure part: `assert len(labels) == len(images) == len(imagenames)` raising
`AssertionError` on violation; then the status-padding line
`max(len(s) for s in imagenames)` raises `ValueError` on an empty batch;
then the labels are encoded and one record per image is emitted. -/
def write_features (ord_map : OrdMap) (labels : List (List Char))
    (images : List (List Nat)) (imagenames : List String) :
    Except Err (List TFRecord) := do
  if ¬ (labels.length = images.length ∧ images.length = imagenames.length) then
    throw .assertionError
  if imagenames.isEmpty then
    throw .valueError
  let (encoded, lengths) ← encode_labels ord_map labels
  return zipRecords encoded images imagenames lengths

/-- Modelled from the spec: validity of a loaded `(ord_map, char_dict)`
pair.  The dictionary builder (`local_utils/establish_char_dict.py`) is
not among the sources under verification; the spec states that OrdMap
maps a sequential string index to the stringified ordinal of a character
of the alphabet, that CharDict maps that ordinal string back to the
character, and that the sentinel index `1` "never corresponds to a real
character" (so the sentinel cell content `'1'` is never a real ordinal
value, and no alphabet character is the null marker `'\x00'`). -/
structure ValidDicts (ord_map : OrdMap) (char_dict : CharDict) : Prop where
  nodupKeys : (ord_map.map Prod.fst).Nodup
  valNatStr : ∀ kv ∈ ord_map, ∃ n : Nat, kv.2 = toString n
  valNeOne : ∀ kv ∈ ord_map, kv.2 ≠ "1"
  charOf : ∀ n : Nat, (∃ kv ∈ ord_map, kv.2 = toString n) →
    Char.ofNat n ≠ '\x00' ∧
    char_dict.lookup (toString n) = some (String.singleton (Char.ofNat n))

/-- The example dictionaries of the spec's concrete scenario:
index 0 ↔ 'a' (ord 97), index 1 reserved, index 2 ↔ 'b' (ord 98). -/
def exOrdMap : OrdMap := [(0, "97"), (2, "98")]

/-- Companion char dict for `exOrdMap`, keyed by stringified ordinal. -/
def exCharDict : CharDict := [("97", "a"), ("98", "b")]

/-- Numeric value of a decimal digit list (`'0'..'9'` as `0..9`), used to
show that the decimal rendering of a natural number is injective. -/
def decVal (l : List Char) : Nat :=
  l.foldl (fun acc c => acc * 10 + (c.toNat - 48)) 0

/-- The content of cell `(r, c)` of a grid, when present. -/
def cellAt (g : List (List PyVal)) (r c : Nat) : Option PyVal :=
  (g.get? r).bind (fun row => row.get? c)

/-- Two grids of equal shape that agree everywhere except possibly at
cell `(r, c)`, which both grids actually contain. -/
def EqExceptCell (g1 g2 : List (List PyVal)) (r c : Nat) : Prop :=
  (∀ i, i ≠ r → g1.get? i = g2.get? i) ∧
  ∃ row1 row2, g1.get? r = some row1 ∧ g2.get? r = some row2 ∧
    row1.length = row2.length ∧ ∀ j, j ≠ c → row1.get? j = row2.get? j

/-! ## Injectivity of the decimal rendering of naturals -/

theorem decVal_append (l : List Char) (c : Char) :
    decVal (l ++ [c]) = decVal l * 10 + (c.toNat - 48) := by
  simp [decVal, List.foldl_append]

theorem toDigitsCore_append (fuel n : Nat) (ds : List Char) :
    Nat.toDigitsCore 10 fuel n ds = Nat.toDigitsCore 10 fuel n [] ++ ds := by
  induction fuel generalizing n ds with
  | zero => simp [Nat.toDigitsCore]
  | succ fuel ih =>
    simp only [Nat.toDigitsCore]
    by_cases h : n / 10 = 0
    · simp [h]
    · simp only [if_neg h]
      rw [ih (n / 10) (_ :: ds), ih (n / 10) [_]]
      simp

theorem digitChar_bounds (n : Nat) (h : n < 10) :
    (Nat.digitChar n).toNat - 48 = n ∧ 48 ≤ (Nat.digitChar n).toNat := by
  interval_cases n <;> exact ⟨by decide, by decide⟩

theorem decVal_toDigitsCore (fuel n : Nat) (h : n ≤ fuel) :
    decVal (Nat.toDigitsCore 10 fuel n []) = n := by
  induction fuel generalizing n with
  | zero =>
    have : n = 0 := by omega
    subst this
    simp [Nat.toDigitsCore, decVal]
  | succ fuel ih =>
    simp only [Nat.toDigitsCore]
    by_cases h0 : n / 10 = 0
    · have hn : n < 10 := by omega
      have := digitChar_bounds (n % 10) (Nat.mod_lt _ (by norm_num))
      have hmod : n % 10 = n := Nat.mod_eq_of_lt hn
      simp only [if_pos h0, decVal, List.foldl]
      omega
    · simp only [if_neg h0]
      rw [toDigitsCore_append, decVal_append]
      have hdiv : n / 10 ≤ fuel := by
        have : n / 10 < n := Nat.div_lt_self (by omega) (by norm_num)
        omega
      rw [ih _ hdiv]
      have := digitChar_bounds (n % 10) (Nat.mod_lt _ (by norm_num))
      have := Nat.div_add_mod n 10
      omega

theorem decVal_toDigits (n : Nat) : decVal (Nat.toDigits 10 n) = n :=
  decVal_toDigitsCore (n + 1) n (by omega)

theorem natToString_inj {a b : Nat} (h : (toString a : String) = toString b) :
    a = b := by
  have ha : (toString a : String) = (Nat.toDigits 10 a).asString := rfl
  have hb : (toString b : String) = (Nat.toDigits 10 b).asString := rfl
  rw [ha, hb] at h
  have hl : Nat.toDigits 10 a = Nat.toDigits 10 b := by
    simpa [List.asString] using congrArg String.data h
  calc a = decVal (Nat.toDigits 10 a) := (decVal_toDigits a).symm
    _ = decVal (Nat.toDigits 10 b) := by rw [hl]
    _ = b := decVal_toDigits b

/-! ## Character lemmas -/

theorem char_toNat_ofNat {n : Nat} (h : Nat.isValidChar n) :
    (Char.ofNat n).toNat = n := by
  rw [Char.ofNat, dif_pos h]
  rfl

theorem pyLower_idem (c : Char) : pyLower (pyLower c) = pyLower c := by
  simp only [pyLower, Char.toLower]
  by_cases h : c.toNat ≥ 65 ∧ c.toNat ≤ 90
  · rw [if_pos h]
    have hv : Nat.isValidChar (c.toNat + 32) := Or.inl (by omega)
    rw [char_toNat_ofNat hv, if_neg (by omega)]
  · rw [if_neg h, if_neg h]

/-! ## Generic `Except` and `mapM` lemmas -/

theorem exbind_ok {α β : Type} {x : Except Err α} {f : α → Except Err β} {b : β} :
    (x >>= f) = .ok b ↔ ∃ a, x = .ok a ∧ f a = .ok b := by
  cases x <;> simp [Bind.bind, Except.bind]

theorem expure_ok {α : Type} {a b : α} :
    (pure a : Except Err α) = .ok b ↔ a = b := by
  constructor
  · intro h
    cases h
    rfl
  · intro h
    cases h
    rfl

theorem mapM_ok_length {α β : Type} {f : α → Except Err β} :
    ∀ {l : List α} {l' : List β}, l.mapM f = .ok l' → l'.length = l.length := by
  intro l
  induction l with
  | nil =>
    intro l' h
    rw [List.mapM_nil, expure_ok] at h
    simp [← h]
  | cons a as ih =>
    intro l' h
    rw [List.mapM_cons, exbind_ok] at h
    rcases h with ⟨b, _, h⟩
    rw [exbind_ok] at h
    rcases h with ⟨bs, hbs, h⟩
    rw [expure_ok] at h
    simp [← h, ih hbs]

theorem mapM_ok_of_forall {α β : Type} {f : α → Except Err β} :
    ∀ {l : List α}, (∀ a ∈ l, ∃ b, f a = .ok b) → ∃ l', l.mapM f = .ok l' := by
  intro l
  induction l with
  | nil =>
    intro _
    exact ⟨[], rfl⟩
  | cons a as ih =>
    intro h
    rcases h a (by simp) with ⟨b, hb⟩
    rcases ih (fun x hx => h x (by simp [hx])) with ⟨bs, hbs⟩
    refine ⟨b :: bs, ?_⟩
    rw [List.mapM_cons, exbind_ok]
    exact ⟨b, hb, by rw [exbind_ok]; exact ⟨bs, hbs, rfl⟩⟩

theorem mapM_ok_mem {α β : Type} {f : α → Except Err β} :
    ∀ {l : List α} {l' : List β}, l.mapM f = .ok l' →
      ∀ b ∈ l', ∃ a ∈ l, f a = .ok b := by
  intro l
  induction l with
  | nil =>
    intro l' h b hb
    rw [List.mapM_nil, expure_ok] at h
    subst h
    cases hb
  | cons a as ih =>
    intro l' h b hb
    rw [List.mapM_cons, exbind_ok] at h
    rcases h with ⟨b0, hb0, h⟩
    rw [exbind_ok] at h
    rcases h with ⟨bs, hbs, h⟩
    rw [expure_ok] at h
    subst h
    rcases List.mem_cons.mp hb with hb | hb
    · exact ⟨a, by simp, hb ▸ hb0⟩
    · rcases ih hbs b hb with ⟨x, hx, hfx⟩
      exact ⟨x, by simp [hx], hfx⟩

theorem mapM_ok_get {α β : Type} {f : α → Except Err β} :
    ∀ {l : List α} {l' : List β}, l.mapM f = .ok l' →
      ∀ i a, l.get? i = some a → ∃ b, l'.get? i = some b ∧ f a = .ok b := by
  intro l
  induction l with
  | nil =>
    intro l' _ i a ha
    cases i <;> cases ha
  | cons x xs ih =>
    intro l' h i a ha
    rw [List.mapM_cons, exbind_ok] at h
    rcases h with ⟨b0, hb0, h⟩
    rw [exbind_ok] at h
    rcases h with ⟨bs, hbs, h⟩
    rw [expure_ok] at h
    subst h
    cases i with
    | zero =>
      cases ha
      exact ⟨b0, rfl, hb0⟩
    | succ i =>
      exact ih hbs i a ha

theorem lookup_eq_some_of_mem {α β : Type} [BEq α] [LawfulBEq α]
    {l : List (α × β)} {k : α} {v : β}
    (hmem : (k, v) ∈ l) (hnodup : (l.map Prod.fst).Nodup) :
    l.lookup k = some v := by
  induction l with
  | nil => cases hmem
  | cons kv rest ih =>
    rcases List.mem_cons.mp hmem with h | h
    · subst h
      simp [List.lookup]
    · simp only [List.map_cons, List.nodup_cons] at hnodup
      have hne : kv.1 ≠ k := by
        intro he
        exact hnodup.1 (he ▸ (List.mem_map.mpr ⟨(k, v), h, rfl⟩))
      have hbeq : (k == kv.1) = false := by
        simp [Ne.symm hne]
      simp only [List.lookup, hbeq]
      exact ih h hnodup.2

/-! ## Grid lemmas -/

theorem setCell_length (g : List (List PyVal)) (r c : Nat) (v : PyVal) :
    (setCell g r c v).length = g.length := by
  simp [setCell]

theorem setCell_get_ne (g : List (List PyVal)) {r i : Nat} (c : Nat) (v : PyVal)
    (h : i ≠ r) : (setCell g r c v).get? i = g.get? i := by
  simp [setCell, List.getElem?_set_ne (Ne.symm h)]

theorem setCell_get_eq (g : List (List PyVal)) {r : Nat} (c : Nat) (v : PyVal)
    (h : r < g.length) :
    (setCell g r c v).get? r = some ((g.getD r []).set c v) := by
  simp [setCell, List.getElem?_set_self h]

theorem setCell_cons_succ (row : List PyVal) (rest : List (List PyVal))
    (r c : Nat) (v : PyVal) :
    setCell (row :: rest) (r + 1) c v = row :: setCell rest r c v := by
  simp [setCell, List.getD]

theorem setCell_row_length :
    ∀ (g : List (List PyVal)) (r : Nat) (c : Nat) (v : PyVal) (i : Nat),
      ((setCell g r c v).getD i []).length = (g.getD i []).length := by
  intro g
  induction g with
  | nil =>
    intro r c v i
    rfl
  | cons row rest ih =>
    intro r c v i
    cases r with
    | zero =>
      cases i with
      | zero => simp [setCell, List.getD]
      | succ i => simp [setCell, List.getD]
    | succ r =>
      rw [setCell_cons_succ]
      cases i with
      | zero => rfl
      | succ i =>
        simpa [List.getD] using ih r c v i

theorem fillGrid_ok_length {rows cols : Nat} :
    ∀ {idxs : List (Int × Int)} {vals : List String} {g g' : List (List PyVal)},
      fillGrid rows cols g idxs vals = .ok g' → g'.length = g.length := by
  intro idxs
  induction idxs with
  | nil =>
    intro vals g g' h
    cases h
    rfl
  | cons p rest ih =>
    intro vals g g' h
    rcases p with ⟨r, c⟩
    cases vals with
    | nil => cases h
    | cons v vrest =>
      simp only [fillGrid] at h
      cases hr : npResolve rows r with
      | none => rw [hr] at h; cases h
      | some r' =>
        cases hc : npResolve cols c with
        | none => rw [hr, hc] at h; cases h
        | some c' =>
          rw [hr, hc] at h
          rw [ih h, setCell_length]

theorem fillGrid_ok_row_length {rows cols : Nat} :
    ∀ {idxs : List (Int × Int)} {vals : List String} {g g' : List (List PyVal)},
      fillGrid rows cols g idxs vals = .ok g' →
      ∀ i, (g'.getD i []).length = (g.getD i []).length := by
  intro idxs
  induction idxs with
  | nil =>
    intro vals g g' h i
    cases h
    rfl
  | cons p rest ih =>
    intro vals g g' h i
    rcases p with ⟨r, c⟩
    cases vals with
    | nil => cases h
    | cons v vrest =>
      simp only [fillGrid] at h
      cases hr : npResolve rows r with
      | none => rw [hr] at h; cases h
      | some r' =>
        cases hc : npResolve cols c with
        | none => rw [hr, hc] at h; cases h
        | some c' =>
          rw [hr, hc] at h
          rw [ih h i, setCell_row_length]

theorem fillGrid_ok_iff {rows cols : Nat} :
    ∀ {idxs : List (Int × Int)} {vals : List String} {g : List (List PyVal)},
      (∃ g', fillGrid rows cols g idxs vals = .ok g') ↔
        (idxs.length ≤ vals.length ∧
          ∀ p ∈ idxs, (npResolve rows p.1).isSome ∧ (npResolve cols p.2).isSome) := by
  intro idxs
  induction idxs with
  | nil =>
    intro vals g
    simp [fillGrid]
  | cons p rest ih =>
    intro vals g
    rcases p with ⟨r, c⟩
    cases vals with
    | nil =>
      constructor
      · intro ⟨g', h⟩
        cases h
      · intro ⟨hlen, _⟩
        simp at hlen
    | cons v vrest =>
      constructor
      · intro ⟨g', h⟩
        simp only [fillGrid] at h
        cases hr : npResolve rows r with
        | none => rw [hr] at h; cases h
        | some r' =>
          cases hc : npResolve cols c with
          | none => rw [hr, hc] at h; cases h
          | some c' =>
            rw [hr, hc] at h
            rcases ih.mp ⟨g', h⟩ with ⟨hlen, hres⟩
            refine ⟨by simpa using hlen, ?_⟩
            intro q hq
            rcases List.mem_cons.mp hq with hq | hq
            · subst hq
              exact ⟨by simp [hr], by simp [hc]⟩
            · exact hres q hq
      · intro ⟨hlen, hres⟩
        have hp := hres (r, c) (by simp)
        rcases Option.isSome_iff_exists.mp hp.1 with ⟨r', hr⟩
        rcases Option.isSome_iff_exists.mp hp.2 with ⟨c', hc⟩
        simp only [fillGrid, hr, hc]
        apply ih.mpr
        refine ⟨by simpa using hlen, ?_⟩
        intro q hq
        exact hres q (by simp [hq])

theorem fillGrid_error_eq {rows cols : Nat} :
    ∀ {idxs : List (Int × Int)} {vals : List String} {g : List (List PyVal)} {e : Err},
      fillGrid rows cols g idxs vals = .error e → e = .indexError := by
  intro idxs
  induction idxs with
  | nil =>
    intro vals g e h
    cases h
  | cons p rest ih =>
    intro vals g e h
    rcases p with ⟨r, c⟩
    cases vals with
    | nil =>
      cases h
      rfl
    | cons v vrest =>
      simp only [fillGrid] at h
      cases hr : npResolve rows r with
      | none =>
        rw [hr] at h
        cases h
        rfl
      | some r' =>
        cases hc : npResolve cols c with
        | none =>
          rw [hr, hc] at h
          cases h
          rfl
        | some c' =>
          rw [hr, hc] at h
          exact ih h

theorem fillGrid_not_ok {rows cols : Nat} {idxs : List (Int × Int)}
    {vals : List String} {g : List (List PyVal)}
    (h : ¬ (idxs.length ≤ vals.length ∧
      ∀ p ∈ idxs, (npResolve rows p.1).isSome ∧ (npResolve cols p.2).isSome)) :
    fillGrid rows cols g idxs vals = .error .indexError := by
  cases hfg : fillGrid rows cols g idxs vals with
  | ok g' => exact absurd (fillGrid_ok_iff.mp ⟨g', hfg⟩) h
  | error e => rw [fillGrid_error_eq hfg]

theorem fillGrid_row_untouched {rows cols : Nat} {r : Nat} :
    ∀ {idxs : List (Int × Int)} {vals : List String} {g g' : List (List PyVal)},
      (∀ p ∈ idxs, npResolve rows p.1 ≠ some r) →
      fillGrid rows cols g idxs vals = .ok g' →
      g'.get? r = g.get? r := by
  intro idxs
  induction idxs with
  | nil =>
    intro vals g g' _ h
    cases h
    rfl
  | cons p rest ih =>
    intro vals g g' hna h
    rcases p with ⟨ri, ci⟩
    cases vals with
    | nil => cases h
    | cons v vrest =>
      simp only [fillGrid] at h
      cases hr : npResolve rows ri with
      | none => rw [hr] at h; cases h
      | some r' =>
        cases hc : npResolve cols ci with
        | none => rw [hr, hc] at h; cases h
        | some c' =>
          rw [hr, hc] at h
          have hne : r ≠ r' := by
            intro he
            exact hna (ri, ci) (by simp) (by rw [hr, he])
          rw [ih (fun q hq => hna q (by simp [hq])) h]
          exact setCell_get_ne g c' (.str v) hne

theorem fillGrid_cell_mem {rows cols : Nat} :
    ∀ {idxs : List (Int × Int)} {vals : List String} {g g' : List (List PyVal)},
      fillGrid rows cols g idxs vals = .ok g' →
      ∀ row' ∈ g', ∀ x ∈ row',
        (∃ row ∈ g, x ∈ row) ∨ ∃ v ∈ vals, x = PyVal.str v := by
  intro idxs
  induction idxs with
  | nil =>
    intro vals g g' h row' hrow' x hx
    cases h
    exact Or.inl ⟨row', hrow', hx⟩
  | cons p rest ih =>
    intro vals g g' h row' hrow' x hx
    rcases p with ⟨ri, ci⟩
    cases vals with
    | nil => cases h
    | cons v vrest =>
      simp only [fillGrid] at h
      cases hr : npResolve rows ri with
      | none => rw [hr] at h; cases h
      | some r' =>
        cases hc : npResolve cols ci with
        | none => rw [hr, hc] at h; cases h
        | some c' =>
          rw [hr, hc] at h
          rcases ih h row' hrow' x hx with ⟨row, hrow, hxrow⟩ | ⟨w, hw, hxw⟩
          · rcases List.mem_or_eq_of_mem_set hrow with hmem | hrow_eq
            · exact Or.inl ⟨row, hmem, hxrow⟩
            · subst hrow_eq
              rcases List.mem_or_eq_of_mem_set hxrow with hxmem | hx_eq
              · by_cases hlt : r' < g.length
                · refine Or.inl ⟨g.getD r' [], ?_, hxmem⟩
                  rw [List.getD_eq_getElem?_getD]
                  rw [List.getElem?_eq_getElem hlt]
                  exact List.getElem_mem hlt
                · rw [List.getD_eq_getElem?_getD, List.getElem?_eq_none (by omega)] at hxmem
                  cases hxmem
              · exact Or.inr ⟨v, by simp, hx_eq⟩
          · exact Or.inr ⟨w, by simp [hw], hxw⟩

/-! ## Decoding lemmas -/

theorem sparse_ok_iff {ord_map : OrdMap} {char_dict : CharDict}
    {idxs : List (Int × Int)} {vals : List Int} {rows cols : Nat}
    {out : List String} :
    sparse_tensor_to_str ord_map char_dict idxs vals rows cols = .ok out ↔
      ∃ translated g strLists,
        translateValues ord_map vals = .ok translated ∧
        fillGrid rows cols
          (List.replicate rows (List.replicate cols
            (if translated.isEmpty then PyVal.int 1 else PyVal.str "1")))
          idxs translated = .ok g ∧
        g.mapM (fun row => row.mapM (fun v => int_to_char char_dict v)) = .ok strLists ∧
        out = strLists.map joinSkipNull := by
  simp only [sparse_tensor_to_str, exbind_ok, expure_ok]
  constructor
  · intro ⟨t, ht, g, hg, sl, hsl, hout⟩
    exact ⟨t, g, sl, ht, hg, hsl, hout.symm⟩
  · intro ⟨t, g, sl, ht, hg, hsl, hout⟩
    exact ⟨t, ht, g, hg, sl, hsl, hout.symm⟩

theorem int_to_char_int_one (char_dict : CharDict) :
    int_to_char char_dict (.int 1) = .ok "\x00" := by
  simp [int_to_char]

theorem int_to_char_str_one (char_dict : CharDict) :
    int_to_char char_dict (.str "1") = .ok "\x00" := by
  simp [int_to_char]

theorem int_to_char_str_ne {char_dict : CharDict} {s : String} (h : s ≠ "1") :
    int_to_char char_dict (.str s) =
      match char_dict.lookup s with
      | some t => .ok t
      | none => .error .keyError := by
  simp [int_to_char, h, pyStr]

theorem mapM_replicate_ok {α β : Type} {f : α → Except Err β} {a : α} {b : β}
    (h : f a = .ok b) (n : Nat) :
    (List.replicate n a).mapM f = .ok (List.replicate n b) := by
  induction n with
  | zero => rfl
  | succ n ih =>
    rw [List.replicate_succ, List.replicate_succ, List.mapM_cons]
    rw [exbind_ok]
    refine ⟨b, h, ?_⟩
    rw [exbind_ok]
    exact ⟨List.replicate n b, ih, rfl⟩

theorem string_join_length :
    ∀ l : List String, (String.join l).length = (l.map String.length).sum := by
  have aux : ∀ (l : List String) (acc : String),
      (l.foldl (fun r s => r ++ s) acc).length = acc.length + (l.map String.length).sum := by
    intro l
    induction l with
    | nil => intro acc; simp
    | cons s rest ih =>
      intro acc
      simp only [List.foldl_cons, List.map_cons, List.sum_cons]
      rw [ih (acc ++ s), String.length_append]
      omega
  intro l
  have := aux l ""
  simpa [String.join] using this

theorem joinSkipNull_all_null {l : List String} (h : ∀ s ∈ l, s = "\x00") :
    joinSkipNull l = "" := by
  have : l.filter (fun c => c != "\x00") = [] := by
    rw [List.filter_eq_nil_iff]
    intro s hs
    simp [h s hs]
  simp [joinSkipNull, this, String.join]

theorem joinSkipNull_replicate_null (n : Nat) :
    joinSkipNull (List.replicate n "\x00") = "" :=
  joinSkipNull_all_null (by
    intro s hs
    exact (List.eq_of_mem_replicate hs))

theorem joinSkipNull_length_le {l : List String} (h : ∀ s ∈ l, s.length ≤ 1) :
    (joinSkipNull l).length ≤ l.length := by
  rw [joinSkipNull, string_join_length]
  calc ((l.filter (fun c => c != "\x00")).map String.length).sum
      ≤ ((l.filter (fun c => c != "\x00")).map (fun _ => 1)).sum := by
        apply List.sum_le_sum
        intro x hx
        exact h x (List.mem_of_mem_filter hx)
    _ = (l.filter (fun c => c != "\x00")).length := by
        simp
    _ ≤ l.length := List.length_filter_le _ _

/-! ## Claim theorems -/

/-- C6: `int_to_char` applied to the sentinel `1` returns the null marker
`'\x00'` for every `char_dict` (so without consulting it), and a `'\x00'`
entry contributes no character to a decoded string: the row join is
unchanged when one is inserted. -/
theorem c6_sentinel_null_marker :
    (∀ char_dict : CharDict, int_to_char char_dict (.int 1) = .ok "\x00") ∧
    (∀ l1 l2 : List String,
      joinSkipNull (l1 ++ "\x00" :: l2) = joinSkipNull (l1 ++ l2)) := by
  constructor
  · intro char_dict
    exact int_to_char_int_one char_dict
  · intro l1 l2
    simp [joinSkipNull, List.filter_append]

/-- C10: `int_to_char` treats the string `'1'` exactly like the integer
`1`: for every `char_dict` it returns the null marker without a lookup,
and a decode whose grid retains unwritten string-typed sentinel cells
(values non-empty, `dense_shape = (1,3)`, one written cell) drops them
from the output. -/
theorem c10_str_one_like_int_one :
    (∀ char_dict : CharDict,
      int_to_char char_dict (.str "1") = .ok "\x00" ∧
      int_to_char char_dict (.str "1") = int_to_char char_dict (.int 1)) ∧
    sparse_tensor_to_str exOrdMap exCharDict [(0, 0)] [0] 1 3 = .ok ["a"] := by
  constructor
  · intro char_dict
    refine ⟨int_to_char_str_one char_dict, ?_⟩
    rw [int_to_char_str_one, int_to_char_int_one]
  · rfl

/-- C7: `char_to_int` lower-cases its argument, takes the ordinal, and
scans `ord_map` for an entry whose value is the decimal string of that
ordinal: it raises `KeyError` iff no entry's value matches, and on success
it returns the key of a matching entry. -/
theorem c7_char_to_int_reverse_lookup (ord_map : OrdMap) (c : Char) :
    (char_to_int ord_map c = .error .keyError ↔
      ∀ kv ∈ ord_map, kv.2 ≠ toString (pyLower c).toNat) ∧
    (∀ k : Int, char_to_int ord_map c = .ok k →
      ∃ kv ∈ ord_map, kv.1 = k ∧ kv.2 = toString (pyLower c).toNat) := by
  cases hf : ord_map.find? (fun kv => kv.2 == toString (pyLower c).toNat) with
  | none =>
    have hall := List.find?_eq_none.mp hf
    constructor
    · constructor
      · intro _ kv hkv
        simpa using hall kv hkv
      · intro _
        simp [char_to_int, hf]
    · intro k hk
      simp [char_to_int, hf] at hk
  | some kv =>
    have hmem : kv ∈ ord_map := List.mem_of_find?_eq_some hf
    have hval : kv.2 = toString (pyLower c).toNat := by
      simpa using List.find?_some hf
    constructor
    · constructor
      · intro he
        simp [char_to_int, hf] at he
      · intro hall
        exact absurd hval (hall kv hmem)
    · intro k hk
      simp only [char_to_int, hf] at hk
      cases hk
      exact ⟨kv, hmem, rfl, hval⟩

/-- C7 witness: on the spec's example dictionary, `char_to_int 'A'`
returns `0`, the key of the entry whose value is `"97" = str(ord('a'))`. -/
theorem c7_witness :
    ∃ kv ∈ exOrdMap, kv.1 = (0 : Int) ∧ kv.2 = toString (pyLower 'A').toNat :=
  (c7_char_to_int_reverse_lookup exOrdMap 'A').2 0 (by rfl)

/-- C9: encoding is case-insensitive: `encode_labels` on the lower-cased
labels returns exactly the same encoded sequences (and lengths) as on the
original labels, for every `ord_map`. -/
theorem c9_encode_case_insensitive (ord_map : OrdMap) (labels : List (List Char)) :
    encode_labels ord_map (labels.map (List.map pyLower)) =
      encode_labels ord_map labels := by
  have hc : ∀ c : Char, char_to_int ord_map (pyLower c) = char_to_int ord_map c := by
    intro c
    simp only [char_to_int, pyLower_idem]
  have hl : ∀ label : List Char,
      (label.map pyLower).mapM (char_to_int ord_map) =
        label.mapM (char_to_int ord_map) := by
    intro label
    induction label with
    | nil => rfl
    | cons c cs ih =>
      rw [List.map_cons, List.mapM_cons, List.mapM_cons, hc c, ih]
  have hmapM : (labels.map (List.map pyLower)).mapM
        (fun label => label.mapM (char_to_int ord_map)) =
      labels.mapM (fun label => label.mapM (char_to_int ord_map)) := by
    induction labels with
    | nil => rfl
    | cons l ls ih =>
      rw [List.map_cons, List.mapM_cons, List.mapM_cons, hl l, ih]
  simp only [encode_labels, hmapM, List.map_map]
  have hlen : (List.map (List.length ∘ List.map pyLower) labels) =
      labels.map List.length := by
    apply List.map_congr_left
    intro l _
    simp
  rw [hlen]

/-- C5: `write_features` with label/image/name lists of unequal lengths
fails with the precondition `AssertionError` (from
`assert len(labels) == len(images) == len(imagenames)`) and emits no
records. -/
theorem c5_writer_length_precondition (ord_map : OrdMap)
    (labels : List (List Char)) (images : List (List Nat))
    (imagenames : List String)
    (h : ¬ (labels.length = images.length ∧ images.length = imagenames.length)) :
    write_features ord_map labels images imagenames = .error .assertionError := by
  simp only [write_features, if_pos h]
  rfl

/-- C5 witness: the spec's scenario — three labels, two images — fails
with the assertion error and produces no records. -/
theorem c5_witness :
    write_features exOrdMap [['a'], ['b'], ['a']] [[0], [1]] ["x", "y"] =
      .error .assertionError :=
  c5_writer_length_precondition exOrdMap [['a'], ['b'], ['a']] [[0], [1]]
    ["x", "y"] (by decide)

/-- C8 counterexample: numpy wraps negative indices, so the entry
`(-1, 0)` of a 1-row grid writes row `0` although its row coordinate
`-1` differs from `0`: row 0 decodes to `"a"`, not `""`. -/
theorem c8_counterexample :
    sparse_tensor_to_str exOrdMap exCharDict [(-1, 0)] [0] 1 1 = .ok ["a"] ∧
    (∀ p ∈ [((-1 : Int), (0 : Int))], p.1 ≠ 0) ∧ "a" ≠ "" :=
  ⟨rfl, by decide, by decide⟩

/-- C8 (amended): if no entry of `indices` resolves — after numpy's
negative-index wrapping, which for non-negative row coordinates is plain
equality — to row `r`, and decoding succeeds, then the `r`-th decoded
string is empty. -/
theorem c8_untouched_row_empty {ord_map : OrdMap} {char_dict : CharDict}
    {idxs : List (Int × Int)} {vals : List Int} {rows cols : Nat}
    {out : List String} {r : Nat}
    (hok : sparse_tensor_to_str ord_map char_dict idxs vals rows cols = .ok out)
    (hr : r < rows)
    (hno : ∀ p ∈ idxs, npResolve rows p.1 ≠ some r) :
    out.get? r = some "" := by
  rcases sparse_ok_iff.mp hok with ⟨translated, g, strLists, _, hg, hsl, hout⟩
  have hrow : g.get? r = some (List.replicate cols
      (if translated.isEmpty then PyVal.int 1 else PyVal.str "1")) := by
    rw [fillGrid_row_untouched hno hg]
    simp [List.get?_eq_getElem?, List.getElem?_replicate, hr]
  have hfill : int_to_char char_dict
      (if translated.isEmpty then PyVal.int 1 else PyVal.str "1") = .ok "\x00" := by
    by_cases he : translated.isEmpty
    · rw [if_pos he]
      exact int_to_char_int_one char_dict
    · rw [if_neg he]
      exact int_to_char_str_one char_dict
  rcases mapM_ok_get hsl r _ hrow with ⟨b, hb, hmap⟩
  have hbval : b = List.replicate cols "\x00" := by
    have := mapM_replicate_ok hfill cols
    rw [this] at hmap
    cases hmap
    rfl
  subst hout
  rw [List.get?_eq_getElem?, List.getElem?_map]
  rw [List.get?_eq_getElem?] at hb
  rw [hb]
  simp [hbval, joinSkipNull_replicate_null]

/-- C8 witness: on a 2-row grid with a single entry in row 0, row 1
decodes to the empty string. -/
theorem c8_witness : (["a", ""] : List String).get? 1 = some "" :=
  @c8_untouched_row_empty exOrdMap exCharDict [(0, 0)] [0] 2 1 ["a", ""] 1
    rfl (by decide) (by decide)

/-! ## Lookup and bounds helpers -/

theorem lookup_isSome_of_key_mem {α β : Type} [BEq α] [LawfulBEq α] :
    ∀ {l : List (α × β)} {k : α}, (∃ kv ∈ l, kv.1 = k) → ∃ w, l.lookup k = some w := by
  intro l
  induction l with
  | nil =>
    intro k ⟨kv, hkv, _⟩
    cases hkv
  | cons p rest ih =>
    intro k ⟨kv, hkv, hk⟩
    by_cases hpk : k == p.1
    · exact ⟨p.2, by simp [List.lookup, hpk]⟩
    · have : (k == p.1) = false := by
        simp at hpk
        simp [hpk]
      rcases List.mem_cons.mp hkv with he | hm
      · subst he
        subst hk
        simp at this
      · rcases ih ⟨kv, hm, hk⟩ with ⟨w, hw⟩
        exact ⟨w, by simp [List.lookup, this, hw]⟩

theorem mem_of_lookup_eq_some {α β : Type} [BEq α] [LawfulBEq α] :
    ∀ {l : List (α × β)} {k : α} {w : β}, l.lookup k = some w → (k, w) ∈ l := by
  intro l
  induction l with
  | nil =>
    intro k w h
    cases h
  | cons p rest ih =>
    intro k w h
    simp only [List.lookup] at h
    by_cases hpk : k == p.1
    · rw [hpk] at h
      cases h
      have : k = p.1 := by simpa using hpk
      subst this
      exact List.mem_cons.mpr (Or.inl rfl)
    · have hfalse : (k == p.1) = false := by
        simpa using hpk
      rw [hfalse] at h
      exact List.mem_cons.mpr (Or.inr (ih h))

theorem npResolve_isSome_iff {dim : Nat} {i : Int} :
    (npResolve dim i).isSome ↔ (-(dim : Int) ≤ i ∧ i < (dim : Int)) := by
  simp only [npResolve]
  by_cases hneg : i < 0
  · by_cases hge : 0 ≤ (dim : Int) + i
    · rw [if_pos hneg, if_pos hge]
      simp only [Option.isSome_some, true_iff]
      omega
    · rw [if_pos hneg, if_neg hge]
      simp only [Option.isSome_none, Bool.false_eq_true, false_iff]
      omega
  · by_cases hlt : i < (dim : Int)
    · rw [if_neg hneg, if_pos hlt]
      simp only [Option.isSome_some, true_iff]
      omega
    · rw [if_neg hneg, if_neg hlt]
      simp only [Option.isSome_none, Bool.false_eq_true, false_iff]
      omega

theorem npResolve_some_lt {dim : Nat} {i : Int} {j : Nat}
    (h : npResolve dim i = some j) : j < dim := by
  simp only [npResolve] at h
  by_cases hneg : i < 0
  · rw [if_pos hneg] at h
    by_cases hge : 0 ≤ (dim : Int) + i
    · rw [if_pos hge] at h
      cases h
      omega
    · rw [if_neg hge] at h
      cases h
  · rw [if_neg hneg] at h
    by_cases hlt : i < (dim : Int)
    · rw [if_pos hlt] at h
      cases h
      omega
    · rw [if_neg hlt] at h
      cases h

theorem validDicts_ex : ValidDicts exOrdMap exCharDict := by
  constructor
  · decide
  · intro kv hkv
    rcases List.mem_cons.mp hkv with h | h
    · subst h
      exact ⟨97, by decide⟩
    · rcases List.mem_cons.mp h with h | h
      · subst h
        exact ⟨98, by decide⟩
      · cases h
  · decide
  · intro n hn
    rcases hn with ⟨kv, hkv, hv⟩
    rcases List.mem_cons.mp hkv with h | h
    · subst h
      have h97s : ("97" : String) = toString (97 : Nat) := by decide
      have h97 : n = 97 := natToString_inj (hv.symm.trans h97s)
      subst h97
      exact ⟨by decide, by decide⟩
    · rcases List.mem_cons.mp h with h | h
      · subst h
        have h98s : ("98" : String) = toString (98 : Nat) := by decide
        have h98 : n = 98 := natToString_inj (hv.symm.trans h98s)
        subst h98
        exact ⟨by decide, by decide⟩
      · cases h

theorem exbind_error {α β : Type} {x : Except Err α} {f : α → Except Err β}
    {e : Err} (h : x = .error e) : (x >>= f) = .error e := by
  subst h
  rfl

theorem exbind_ok_apply {α β : Type} (a : α) (f : α → Except Err β) :
    ((Except.ok a : Except Err α) >>= f) = f a := rfl

theorem translate_elem_ok {ord_map : OrdMap} {v : Int} {s : String}
    (h : (match ord_map.lookup v with
          | some s => (Except.ok s : Except Err String)
          | none => .error .keyError) = .ok s) :
    ord_map.lookup v = some s := by
  cases hl : ord_map.lookup v with
  | some w =>
    rw [hl] at h
    cases h
    rfl
  | none =>
    rw [hl] at h
    cases h

theorem sparse_ok_of_valid {ord_map : OrdMap} {char_dict : CharDict}
    {idxs : List (Int × Int)} {vals : List Int} {rows cols : Nat}
    (h : ValidDicts ord_map char_dict)
    (hlen : idxs.length ≤ vals.length)
    (hvals : ∀ v ∈ vals, ∃ kv ∈ ord_map, kv.1 = v)
    (hres : ∀ p ∈ idxs, (npResolve rows p.1).isSome ∧ (npResolve cols p.2).isSome) :
    ∃ out, sparse_tensor_to_str ord_map char_dict idxs vals rows cols = .ok out ∧
      out.length = rows ∧ ∀ s ∈ out, s.length ≤ cols := by
  -- step 1: the value translation succeeds
  have htrans : ∃ t, translateValues ord_map vals = .ok t := by
    simp only [translateValues]
    apply mapM_ok_of_forall
    intro v hv
    rcases lookup_isSome_of_key_mem (hvals v hv) with ⟨w, hw⟩
    exact ⟨w, by simp [hw]⟩
  rcases htrans with ⟨t, ht⟩
  rw [translateValues] at ht
  have htlen : t.length = vals.length := mapM_ok_length ht
  -- every translated string has a one-character `char_dict` image or is "1"
  have htchar : ∀ s ∈ t, s = "1" ∨
      ∃ ch : Char, char_dict.lookup s = some (String.singleton ch) := by
    intro s hs
    rcases mapM_ok_mem ht s hs with ⟨v, hv, hfv⟩
    have hlook := translate_elem_ok hfv
    have hmem := mem_of_lookup_eq_some hlook
    rcases h.valNatStr (v, s) hmem with ⟨n, hn⟩
    rcases h.charOf n ⟨(v, s), hmem, hn⟩ with ⟨_, hcd⟩
    have hn' : s = toString n := hn
    exact Or.inr ⟨Char.ofNat n, by rw [hn']; exact hcd⟩
  -- step 2: the grid fill succeeds
  have hfill : ∃ g, fillGrid rows cols
      (List.replicate rows (List.replicate cols
        (if t.isEmpty then PyVal.int 1 else PyVal.str "1"))) idxs t = .ok g :=
    fillGrid_ok_iff.mpr ⟨by omega, hres⟩
  rcases hfill with ⟨g, hg⟩
  have hglen : g.length = rows := by
    rw [fillGrid_ok_length hg, List.length_replicate]
  have hgrow : ∀ row ∈ g, row.length = cols := by
    intro row hrow
    rcases List.mem_iff_get.mp hrow with ⟨i, hi⟩
    have hlt : (i : Nat) < rows := by
      have := i.isLt
      omega
    have h1 := fillGrid_ok_row_length hg i
    have h2 : g.getD i [] = row := by
      have hget : g[(i : Nat)] = row := by
        rw [← List.get_eq_getElem]
        exact hi
      rw [List.getD_eq_getElem?_getD, List.getElem?_eq_getElem i.isLt]
      simpa using hget
    have h3 : (List.replicate rows (List.replicate cols
        (if t.isEmpty then PyVal.int 1 else PyVal.str "1"))).getD i [] =
        List.replicate cols (if t.isEmpty then PyVal.int 1 else PyVal.str "1") := by
      rw [List.getD_eq_getElem?_getD, List.getElem?_replicate, if_pos hlt]
      rfl
    rw [h2, h3] at h1
    rw [h1, List.length_replicate]
  -- step 3: every cell decodes to a string of length at most 1
  have hcell : ∀ row ∈ g, ∀ x ∈ row,
      ∃ b : String, int_to_char char_dict x = .ok b ∧ b.length ≤ 1 := by
    intro row hrow x hx
    rcases fillGrid_cell_mem hg row hrow x hx with ⟨row0, hrow0, hx0⟩ | ⟨w, hw, hxw⟩
    · have : row0 = List.replicate cols (if t.isEmpty then PyVal.int 1 else PyVal.str "1") :=
        List.eq_of_mem_replicate hrow0
      subst this
      have : x = (if t.isEmpty then PyVal.int 1 else PyVal.str "1") :=
        List.eq_of_mem_replicate hx0
      subst this
      by_cases he : t.isEmpty
      · exact ⟨"\x00", by rw [if_pos he]; exact int_to_char_int_one char_dict, by decide⟩
      · exact ⟨"\x00", by rw [if_neg he]; exact int_to_char_str_one char_dict, by decide⟩
    · subst hxw
      rcases htchar w hw with hw1 | ⟨ch, hch⟩
      · subst hw1
        exact ⟨"\x00", int_to_char_str_one char_dict, by decide⟩
      · by_cases hw1 : w = "1"
        · subst hw1
          exact ⟨"\x00", int_to_char_str_one char_dict, by decide⟩
        · refine ⟨String.singleton ch, ?_, le_of_eq rfl⟩
          rw [int_to_char_str_ne hw1, hch]
  -- step 4: mapping `int_to_char` over the grid succeeds
  have hmap : ∃ sl, g.mapM (fun row => row.mapM (fun v => int_to_char char_dict v)) =
      .ok sl := by
    apply mapM_ok_of_forall
    intro row hrow
    apply mapM_ok_of_forall
    intro x hx
    rcases hcell row hrow x hx with ⟨b, hb, _⟩
    exact ⟨b, hb⟩
  rcases hmap with ⟨sl, hsl⟩
  refine ⟨sl.map joinSkipNull, ?_, ?_, ?_⟩
  · exact sparse_ok_iff.mpr ⟨t, g, sl, ht, hg, hsl, rfl⟩
  · rw [List.length_map, mapM_ok_length hsl, hglen]
  · intro s hs
    rcases List.mem_map.mp hs with ⟨row', hrow', hs⟩
    subst hs
    rcases mapM_ok_mem hsl row' hrow' with ⟨row, hrow, hrowM⟩
    have hlen1 : ∀ x ∈ row', x.length ≤ 1 := by
      intro x hx
      rcases mapM_ok_mem hrowM x hx with ⟨cell, hcellmem, hcellok⟩
      rcases hcell row hrow cell hcellmem with ⟨b, hb, hble⟩
      rw [hb] at hcellok
      cases hcellok
      exact hble
    calc (joinSkipNull row').length ≤ row'.length := joinSkipNull_length_le hlen1
      _ = row.length := mapM_ok_length hrowM
      _ = cols := hgrow row hrow

/-- C2 counterexample: the entry `(0, -1)` has a column outside
`[0, cols) = [0, 2)`, yet decoding succeeds — numpy wraps the negative
column to `cols - 1` instead of raising `IndexError`. -/
theorem c2_counterexample :
    sparse_tensor_to_str exOrdMap exCharDict [(0, -1)] [0] 1 2 = .ok ["a"] ∧
    ¬ (0 ≤ (-1 : Int)) :=
  ⟨rfl, by decide⟩

/-- C2 (amended): with valid dictionaries, aligned translatable values
and numpy index semantics, decoding succeeds iff every `(row, col)` lies
in `[-rows, rows) × [-cols, cols)` (negative coordinates wrap); any
coordinate outside that range makes the decode fail with `IndexError`. -/
theorem c2_bounds_check (ord_map : OrdMap) (char_dict : CharDict)
    (idxs : List (Int × Int)) (vals : List Int) (rows cols : Nat)
    (h : ValidDicts ord_map char_dict)
    (hlen : idxs.length ≤ vals.length)
    (hvals : ∀ v ∈ vals, ∃ kv ∈ ord_map, kv.1 = v) :
    ((∀ p ∈ idxs, (-(rows : Int) ≤ p.1 ∧ p.1 < (rows : Int)) ∧
        (-(cols : Int) ≤ p.2 ∧ p.2 < (cols : Int))) →
      ∃ out, sparse_tensor_to_str ord_map char_dict idxs vals rows cols = .ok out) ∧
    ((∃ p ∈ idxs, ¬ ((-(rows : Int) ≤ p.1 ∧ p.1 < (rows : Int)) ∧
        (-(cols : Int) ≤ p.2 ∧ p.2 < (cols : Int)))) →
      sparse_tensor_to_str ord_map char_dict idxs vals rows cols =
        .error .indexError) := by
  constructor
  · intro hin
    rcases sparse_ok_of_valid h hlen hvals (fun p hp =>
      ⟨npResolve_isSome_iff.mpr (hin p hp).1,
       npResolve_isSome_iff.mpr (hin p hp).2⟩) with ⟨out, hout, _, _⟩
    exact ⟨out, hout⟩
  · intro hbad
    have htrans : ∃ t, translateValues ord_map vals = .ok t := by
      simp only [translateValues]
      apply mapM_ok_of_forall
      intro v hv
      rcases lookup_isSome_of_key_mem (hvals v hv) with ⟨w, hw⟩
      exact ⟨w, by simp [hw]⟩
    rcases htrans with ⟨t, ht⟩
    simp only [sparse_tensor_to_str]
    rw [ht, exbind_ok_apply]
    apply exbind_error
    apply fillGrid_not_ok
    intro ⟨_, hall⟩
    rcases hbad with ⟨p, hp, hnotin⟩
    rcases hall p hp with ⟨h1, h2⟩
    exact hnotin ⟨npResolve_isSome_iff.mp h1, npResolve_isSome_iff.mp h2⟩

/-- C2 witness: an in-bounds entry decodes successfully. -/
theorem c2_witness :
    ∃ out, sparse_tensor_to_str exOrdMap exCharDict [(0, 0)] [0] 1 1 = .ok out :=
  (c2_bounds_check exOrdMap exCharDict [(0, 0)] [0] 1 1 validDicts_ex
    (by decide) (by decide)).1 (by decide)

/-- C3: with valid dictionaries, aligned translatable values and
in-bounds indices, decoding succeeds, returns exactly `rows` strings, and
every returned string has at most `cols` characters. -/
theorem c3_output_shape (ord_map : OrdMap) (char_dict : CharDict)
    (idxs : List (Int × Int)) (vals : List Int) (rows cols : Nat)
    (h : ValidDicts ord_map char_dict)
    (hlen : idxs.length = vals.length)
    (hvals : ∀ v ∈ vals, ∃ kv ∈ ord_map, kv.1 = v)
    (hidx : ∀ p ∈ idxs, 0 ≤ p.1 ∧ p.1 < (rows : Int) ∧
      0 ≤ p.2 ∧ p.2 < (cols : Int)) :
    ∃ out, sparse_tensor_to_str ord_map char_dict idxs vals rows cols = .ok out ∧
      out.length = rows ∧ ∀ s ∈ out, s.length ≤ cols := by
  apply sparse_ok_of_valid h (le_of_eq hlen) hvals
  intro p hp
  rcases hidx p hp with ⟨h1, h2, h3, h4⟩
  exact ⟨npResolve_isSome_iff.mpr ⟨by omega, h2⟩,
         npResolve_isSome_iff.mpr ⟨by omega, h4⟩⟩

/-- C3 witness: the spec's concrete scenario, `dense_shape = (1, 2)` with
two written cells, returns one string of length at most 2. -/
theorem c3_witness :
    ∃ out, sparse_tensor_to_str exOrdMap exCharDict [(0, 0), (0, 1)] [0, 2] 1 2 =
      .ok out ∧ out.length = 1 ∧ ∀ s ∈ out, s.length ≤ 2 :=
  c3_output_shape exOrdMap exCharDict [(0, 0), (0, 1)] [0, 2] 1 2 validDicts_ex
    (by decide) (by decide) (by decide)

/-! ## Overwrite congruence (last write wins) -/

theorem setCell_get_self (g : List (List PyVal)) (r c : Nat) (v : PyVal) :
    (setCell g r c v).get? r = (g.get? r).map (fun row => row.set c v) := by
  by_cases hlt : r < g.length
  · rw [setCell_get_eq g c v hlt]
    rw [List.get?_eq_getElem?, List.getElem?_eq_getElem hlt]
    have : g.getD r [] = g[r] := by
      rw [List.getD_eq_getElem?_getD, List.getElem?_eq_getElem hlt]
      rfl
    rw [this]
    rfl
  · have h1 : g.get? r = none := by
      rw [List.get?_eq_none]
      omega
    have h2 : (setCell g r c v).get? r = none := by
      rw [List.get?_eq_none, setCell_length]
      omega
    rw [h1, h2]
    rfl

theorem eqExceptCell_setCell {g : List (List PyVal)} {r c : Nat}
    (v v' : PyVal) (hr : r < g.length) :
    EqExceptCell (setCell g r c v) (setCell g r c v') r c := by
  refine ⟨?_, ?_⟩
  · intro i hi
    rw [setCell_get_ne g c v hi, setCell_get_ne g c v' hi]
  · refine ⟨(g.getD r []).set c v, (g.getD r []).set c v',
      setCell_get_eq g c v hr, setCell_get_eq g c v' hr,
      by rw [List.length_set, List.length_set], ?_⟩
    intro j hj
    rw [List.get?_eq_getElem?, List.get?_eq_getElem?]
    rw [List.getElem?_set_ne (Ne.symm hj), List.getElem?_set_ne (Ne.symm hj)]

theorem setCell_congr {g1 g2 : List (List PyVal)} {r c : Nat}
    (h : EqExceptCell g1 g2 r c) (v : PyVal) :
    setCell g1 r c v = setCell g2 r c v := by
  rcases h with ⟨houter, row1, row2, h1, h2, hlen, hrow⟩
  apply List.ext_getElem?
  intro n
  rw [← List.get?_eq_getElem?, ← List.get?_eq_getElem?]
  by_cases hn : n = r
  · subst hn
    rw [setCell_get_self, setCell_get_self, h1, h2]
    have : row1.set c v = row2.set c v := by
      apply List.ext_getElem?
      intro j
      by_cases hj : j = c
      · subst hj
        rw [List.getElem?_set, List.getElem?_set, if_pos rfl, if_pos rfl, hlen]
      · rw [List.getElem?_set_ne (Ne.symm hj), List.getElem?_set_ne (Ne.symm hj)]
        rw [← List.get?_eq_getElem?, ← List.get?_eq_getElem?]
        exact hrow j hj
    simp [this]
  · rw [setCell_get_ne g1 c v hn, setCell_get_ne g2 c v hn]
    exact houter n hn

theorem eqExceptCell_setCell_other {g1 g2 : List (List PyVal)} {r c r' c' : Nat}
    (h : EqExceptCell g1 g2 r c) (hne : ¬ (r' = r ∧ c' = c)) (v : PyVal) :
    EqExceptCell (setCell g1 r' c' v) (setCell g2 r' c' v) r c := by
  rcases h with ⟨houter, row1, row2, h1, h2, hlen, hrow⟩
  by_cases hrr : r' = r
  · subst hrr
    have hcc : c' ≠ c := fun hc => hne ⟨rfl, hc⟩
    refine ⟨?_, ?_⟩
    · intro i hi
      rw [setCell_get_ne g1 c' v hi, setCell_get_ne g2 c' v hi]
      exact houter i hi
    · have hd1 : g1.getD r' [] = row1 := by
        rw [List.getD_eq_getElem?_getD, ← List.get?_eq_getElem?, h1]
        rfl
      have hd2 : g2.getD r' [] = row2 := by
        rw [List.getD_eq_getElem?_getD, ← List.get?_eq_getElem?, h2]
        rfl
      have hr1 : r' < g1.length := by
        by_contra hcon
        rw [List.get?_eq_none.mpr (by omega)] at h1
        cases h1
      have hr2 : r' < g2.length := by
        by_contra hcon
        rw [List.get?_eq_none.mpr (by omega)] at h2
        cases h2
      refine ⟨row1.set c' v, row2.set c' v, ?_, ?_, by simp [hlen], ?_⟩
      · rw [setCell_get_eq g1 c' v hr1, hd1]
      · rw [setCell_get_eq g2 c' v hr2, hd2]
      · intro j hj
        rw [List.get?_eq_getElem?, List.get?_eq_getElem?]
        by_cases hjc : j = c'
        · subst hjc
          rw [List.getElem?_set, List.getElem?_set, if_pos rfl, if_pos rfl, hlen]
        · rw [List.getElem?_set_ne (Ne.symm hjc), List.getElem?_set_ne (Ne.symm hjc)]
          rw [← List.get?_eq_getElem?, ← List.get?_eq_getElem?]
          exact hrow j hj
  · refine ⟨?_, ?_⟩
    · intro i hi
      by_cases hir : i = r'
      · subst hir
        rw [setCell_get_self, setCell_get_self, houter i hrr]
      · rw [setCell_get_ne g1 c' v hir, setCell_get_ne g2 c' v hir]
        exact houter i hi
    · refine ⟨row1, row2, ?_, ?_, hlen, hrow⟩
      · rw [setCell_get_ne g1 c' v (Ne.symm (by omega)), h1]
      · rw [setCell_get_ne g2 c' v (Ne.symm (by omega)), h2]

theorem fillGrid_congr {rows cols : Nat} {r c : Nat} :
    ∀ {idxs : List (Int × Int)} {vals : List String} {g1 g2 : List (List PyVal)},
      EqExceptCell g1 g2 r c →
      (∃ q ∈ idxs, npResolve rows q.1 = some r ∧ npResolve cols q.2 = some c) →
      fillGrid rows cols g1 idxs vals = fillGrid rows cols g2 idxs vals := by
  intro idxs
  induction idxs with
  | nil =>
    intro vals g1 g2 _ hq
    rcases hq with ⟨q, hq, _⟩
    cases hq
  | cons p rest ih =>
    intro vals g1 g2 heq hq
    rcases p with ⟨ri, ci⟩
    cases vals with
    | nil => rfl
    | cons v vrest =>
      simp only [fillGrid]
      cases hr : npResolve rows ri with
      | none => rfl
      | some r' =>
        cases hc : npResolve cols ci with
        | none => rfl
        | some c' =>
          by_cases hsame : r' = r ∧ c' = c
          · have hgeq : setCell g1 r' c' (PyVal.str v) = setCell g2 r' c' (PyVal.str v) := by
              rw [hsame.1, hsame.2]
              exact setCell_congr heq (PyVal.str v)
            show fillGrid rows cols (setCell g1 r' c' (PyVal.str v)) rest vrest =
              fillGrid rows cols (setCell g2 r' c' (PyVal.str v)) rest vrest
            rw [hgeq]
          · apply ih (eqExceptCell_setCell_other heq hsame (.str v))
            rcases hq with ⟨q, hqmem, hqres⟩
            rcases List.mem_cons.mp hqmem with hqp | hqrest
            · exfalso
              subst hqp
              rw [hr] at hqres
              rw [hc] at hqres
              rcases hqres with ⟨hres1, hres2⟩
              cases hres1
              cases hres2
              exact hsame ⟨rfl, rfl⟩
            · exact ⟨q, hqrest, hqres⟩

theorem fillGrid_append {rows cols : Nat} :
    ∀ {l1 : List (Int × Int)} {t1 : List String} {l2 : List (Int × Int)}
      {t2 : List String} {g : List (List PyVal)}, l1.length = t1.length →
      fillGrid rows cols g (l1 ++ l2) (t1 ++ t2) =
        (fillGrid rows cols g l1 t1) >>= fun g' => fillGrid rows cols g' l2 t2 := by
  intro l1
  induction l1 with
  | nil =>
    intro t1 l2 t2 g hlen
    have : t1 = [] := by
      cases t1 with
      | nil => rfl
      | cons a b => simp at hlen
    subst this
    rfl
  | cons p l1' ih =>
    intro t1 l2 t2 g hlen
    rcases p with ⟨ri, ci⟩
    cases t1 with
    | nil => simp at hlen
    | cons v t1' =>
      simp only [List.cons_append, fillGrid]
      cases hr : npResolve rows ri with
      | none => rfl
      | some r' =>
        cases hc : npResolve cols ci with
        | none => rfl
        | some c' =>
          apply ih
          simpa using hlen

theorem translateValues_append_cons {ord_map : OrdMap} {w1 w2 : List Int}
    {a : Int} {t1 t2 : List String} {ta : String}
    (h1 : translateValues ord_map w1 = .ok t1)
    (ha : ord_map.lookup a = some ta)
    (h2 : translateValues ord_map w2 = .ok t2) :
    translateValues ord_map (w1 ++ a :: w2) = .ok (t1 ++ ta :: t2) := by
  rw [translateValues] at h1 h2 ⊢
  rw [List.mapM_append, exbind_ok]
  refine ⟨t1, h1, ?_⟩
  rw [exbind_ok]
  refine ⟨ta :: t2, ?_, rfl⟩
  rw [List.mapM_cons, exbind_ok]
  refine ⟨ta, by simp [ha], ?_⟩
  rw [exbind_ok]
  exact ⟨t2, h2, rfl⟩

/-! ## Round-trip lemmas -/

theorem join_singletons : ∀ cs : List Char,
    String.join (cs.map String.singleton) = ⟨cs⟩ := by
  have aux : ∀ (l : List String) (acc : String),
      (l.foldl (fun r s => r ++ s) acc).data = acc.data ++ (l.map String.data).flatten := by
    intro l
    induction l with
    | nil =>
      intro acc
      simp
    | cons s rest ih =>
      intro acc
      simp only [List.foldl_cons, List.map_cons, List.flatten]
      rw [ih (acc ++ s), String.data_append]
      simp
  intro cs
  apply String.ext
  rw [String.join]
  rw [aux _ ""]
  have h1 : (cs.map String.singleton).map String.data = cs.map (fun c => [c]) := by
    rw [List.map_map]
    rfl
  have h2 : ∀ l : List Char, (l.map (fun c => [c])).flatten = l := by
    intro l
    induction l with
    | nil => rfl
    | cons x xs ih => simp [ih]
  rw [h1]
  simp [h2]

theorem char_roundtrip {ord_map : OrdMap} {char_dict : CharDict}
    (h : ValidDicts ord_map char_dict) {c : Char}
    (hc : ∃ kv ∈ ord_map, kv.2 = toString (pyLower c).toNat) :
    ∃ k : Int, char_to_int ord_map c = .ok k ∧
      ord_map.lookup k = some (toString (pyLower c).toNat) ∧
      int_to_char char_dict (.str (toString (pyLower c).toNat)) =
        .ok (String.singleton (pyLower c)) ∧
      String.singleton (pyLower c) ≠ "\x00" := by
  cases hf : ord_map.find? (fun kv => kv.2 == toString (pyLower c).toNat) with
  | none =>
    exfalso
    rcases hc with ⟨kv, hmem, hval⟩
    have := List.find?_eq_none.mp hf kv hmem
    simp [hval] at this
  | some kv0 =>
    have hmem0 : kv0 ∈ ord_map := List.mem_of_find?_eq_some hf
    have hval0 : kv0.2 = toString (pyLower c).toNat := by
      simpa using List.find?_some hf
    have hchar := h.charOf (pyLower c).toNat ⟨kv0, hmem0, hval0⟩
    rw [Char.ofNat_toNat] at hchar
    refine ⟨kv0.1, ?_, ?_, ?_, ?_⟩
    · simp [char_to_int, hf]
    · have : (kv0.1, kv0.2) ∈ ord_map := by
        have : (kv0.1, kv0.2) = kv0 := rfl
        rw [this]
        exact hmem0
      rw [← hval0]
      exact lookup_eq_some_of_mem this h.nodupKeys
    · have hne1 : toString (pyLower c).toNat ≠ "1" := by
        rw [← hval0]
        exact h.valNeOne kv0 hmem0
      rw [int_to_char_str_ne hne1, hchar.2]
    · intro heq
      have hdata := congrArg String.data heq
      simp only [String.singleton, String.data_push] at hdata
      exact hchar.1 (by simpa using hdata)

/-- C1: for every label all of whose (lower-cased) characters have their
ordinal among `ord_map`'s values, encoding with `encode_labels` succeeds
and decoding the produced indices — translating each through `ord_map`,
mapping `int_to_char`, dropping the null markers and joining — returns
the lower-cased label. -/
theorem c1_decode_encode_roundtrip (ord_map : OrdMap) (char_dict : CharDict)
    (h : ValidDicts ord_map char_dict) (label : List Char)
    (hc : ∀ c ∈ label, ∃ kv ∈ ord_map, kv.2 = toString (pyLower c).toNat) :
    ∃ es : List Int,
      encode_labels ord_map [label] = .ok ([es], [label.length]) ∧
      decode_indices ord_map char_dict es = .ok ⟨label.map pyLower⟩ := by
  have main : ∀ lab : List Char,
      (∀ c ∈ lab, ∃ kv ∈ ord_map, kv.2 = toString (pyLower c).toNat) →
      ∃ es : List Int, lab.mapM (char_to_int ord_map) = .ok es ∧
        translateValues ord_map es =
          .ok (lab.map (fun c => toString (pyLower c).toNat)) ∧
        (lab.map (fun c => toString (pyLower c).toNat)).mapM
            (fun s => int_to_char char_dict (.str s)) =
          .ok (lab.map (fun c => String.singleton (pyLower c))) := by
    intro lab
    induction lab with
    | nil =>
      intro _
      exact ⟨[], rfl, rfl, rfl⟩
    | cons c cs ih =>
      intro hcs
      rcases char_roundtrip h (hcs c (by simp)) with ⟨k, hk, hlook, hdec, _⟩
      rcases ih (fun x hx => hcs x (by simp [hx])) with ⟨es, h1, h2, h3⟩
      refine ⟨k :: es, ?_, ?_, ?_⟩
      · rw [List.mapM_cons, exbind_ok]
        refine ⟨k, hk, ?_⟩
        rw [exbind_ok]
        exact ⟨es, h1, rfl⟩
      · rw [translateValues, List.mapM_cons, exbind_ok]
        refine ⟨toString (pyLower c).toNat, by simp [hlook], ?_⟩
        rw [exbind_ok]
        rw [translateValues] at h2
        exact ⟨_, h2, rfl⟩
      · rw [List.map_cons, List.mapM_cons, exbind_ok]
        refine ⟨String.singleton (pyLower c), hdec, ?_⟩
        rw [exbind_ok]
        exact ⟨_, h3, rfl⟩
  rcases main label hc with ⟨es, h1, h2, h3⟩
  refine ⟨es, ?_, ?_⟩
  · have henc : [label].mapM (fun l => l.mapM (char_to_int ord_map)) = .ok [es] := by
      rw [List.mapM_cons, exbind_ok]
      refine ⟨es, h1, ?_⟩
      rw [exbind_ok]
      exact ⟨[], rfl, rfl⟩
    simp only [encode_labels, henc, exbind_ok_apply]
    rfl
  · have hjoin : joinSkipNull (label.map (fun c => String.singleton (pyLower c))) =
        ⟨label.map pyLower⟩ := by
      have hfil : (label.map (fun c => String.singleton (pyLower c))).filter
          (fun s => s != "\x00") = label.map (fun c => String.singleton (pyLower c)) := by
        rw [List.filter_eq_self]
        intro s hs
        rcases List.mem_map.mp hs with ⟨x, hx, hxs⟩
        rcases char_roundtrip h (hc x hx) with ⟨_, _, _, _, hne⟩
        subst hxs
        simpa using hne
      rw [joinSkipNull, hfil]
      have : label.map (fun c => String.singleton (pyLower c)) =
          (label.map pyLower).map String.singleton := by
        rw [List.map_map]
        rfl
      rw [this, join_singletons]
    simp only [decode_indices, h2, exbind_ok_apply, h3, hjoin]
    rfl

/-- C1 witness: on the spec's example dictionaries, the label `"Ab"`
encodes to `[0, 2]` and decodes back to `"ab"`. -/
theorem c1_witness :
    ∃ es : List Int,
      encode_labels exOrdMap [['A', 'b']] = .ok ([es], [2]) ∧
      decode_indices exOrdMap exCharDict es = .ok ⟨['a', 'b']⟩ := by
  have := c1_decode_encode_roundtrip exOrdMap exCharDict validDicts_ex
    ['A', 'b'] (by decide)
  simpa using this

/-! ## Cell-level characterization of the fill loop -/

theorem setCell_cellAt_ne {r c r' c' : Nat} (g : List (List PyVal)) (v : PyVal)
    (hne : ¬ (r' = r ∧ c' = c)) :
    cellAt (setCell g r' c' v) r c = cellAt g r c := by
  by_cases hrr : r' = r
  · subst hrr
    have hcc : c' ≠ c := fun hc => hne ⟨rfl, hc⟩
    rw [cellAt, cellAt, setCell_get_self]
    cases hg : g.get? r' with
    | none => rfl
    | some row =>
      show (row.set c' v).get? c = row.get? c
      rw [List.get?_eq_getElem?, List.get?_eq_getElem?,
        List.getElem?_set_ne hcc]
  · rw [cellAt, cellAt, setCell_get_ne g c' v (Ne.symm hrr)]

theorem setCell_cellAt_eq {r c : Nat} (g : List (List PyVal)) (v : PyVal)
    (hr : r < g.length) (hc : c < (g.getD r []).length) :
    cellAt (setCell g r c v) r c = some v := by
  rw [cellAt, setCell_get_eq g c v hr]
  show ((g.getD r []).set c v).get? c = some v
  rw [List.get?_eq_getElem?]
  rw [List.getElem?_set_self hc]

theorem fillGrid_cell_untouched {rows cols : Nat} {r c : Nat} :
    ∀ {idxs : List (Int × Int)} {vals : List String} {g g' : List (List PyVal)},
      (∀ q ∈ idxs, ¬ (npResolve rows q.1 = some r ∧ npResolve cols q.2 = some c)) →
      fillGrid rows cols g idxs vals = .ok g' →
      cellAt g' r c = cellAt g r c := by
  intro idxs
  induction idxs with
  | nil =>
    intro vals g g' _ h
    cases h
    rfl
  | cons p rest ih =>
    intro vals g g' hna h
    rcases p with ⟨ri, ci⟩
    cases vals with
    | nil => cases h
    | cons v vrest =>
      simp only [fillGrid] at h
      cases hr : npResolve rows ri with
      | none => rw [hr] at h; cases h
      | some r' =>
        cases hc : npResolve cols ci with
        | none => rw [hr, hc] at h; cases h
        | some c' =>
          rw [hr, hc] at h
          rw [ih (fun q hq => hna q (by simp [hq])) h]
          apply setCell_cellAt_ne
          intro ⟨h1, h2⟩
          exact hna (ri, ci) (by simp) (by rw [hr, hc, h1, h2]; exact ⟨rfl, rfl⟩)
/-- Replacing the value of an entry that a later entry of `indices`
overwrites (same numpy-resolved cell) does not change the decode output:
the fill is a dense overwrite, not an accumulation. -/
theorem sparse_replace_earlier_dup (ord_map : OrdMap) (char_dict : CharDict)
    (l1 l2 : List (Int × Int)) (p : Int × Int) (w1 w2 : List Int) (a a' : Int)
    (rows cols : Nat)
    (hlen : w1.length = l1.length)
    (ha : ∃ s, ord_map.lookup a = some s)
    (ha' : ∃ s, ord_map.lookup a' = some s)
    (hw1 : ∀ v ∈ w1, ∃ s, ord_map.lookup v = some s)
    (hw2 : ∀ v ∈ w2, ∃ s, ord_map.lookup v = some s)
    (hq : ∃ q ∈ l2, npResolve rows q.1 = npResolve rows p.1 ∧
      npResolve cols q.2 = npResolve cols p.2) :
    sparse_tensor_to_str ord_map char_dict (l1 ++ p :: l2) (w1 ++ a :: w2) rows cols =
      sparse_tensor_to_str ord_map char_dict (l1 ++ p :: l2) (w1 ++ a' :: w2) rows cols := by
  -- translate the three pieces of the value list
  have htr1 : ∃ t1, translateValues ord_map w1 = .ok t1 := by
    simp only [translateValues]
    apply mapM_ok_of_forall
    intro v hv
    rcases hw1 v hv with ⟨s, hs⟩
    exact ⟨s, by simp [hs]⟩
  have htr2 : ∃ t2, translateValues ord_map w2 = .ok t2 := by
    simp only [translateValues]
    apply mapM_ok_of_forall
    intro v hv
    rcases hw2 v hv with ⟨s, hs⟩
    exact ⟨s, by simp [hs]⟩
  rcases htr1 with ⟨t1, ht1⟩
  rcases htr2 with ⟨t2, ht2⟩
  rcases ha with ⟨ta, hta⟩
  rcases ha' with ⟨ta', hta'⟩
  have htr : translateValues ord_map (w1 ++ a :: w2) = .ok (t1 ++ ta :: t2) :=
    translateValues_append_cons ht1 hta ht2
  have htr' : translateValues ord_map (w1 ++ a' :: w2) = .ok (t1 ++ ta' :: t2) :=
    translateValues_append_cons ht1 hta' ht2
  have ht1len : t1.length = w1.length := by
    rw [translateValues] at ht1
    exact mapM_ok_length ht1
  have hempty : ∀ s : String, ∀ t : List String,
      (t1 ++ s :: t).isEmpty = false := by
    intro s t
    cases t1 <;> rfl
  simp only [sparse_tensor_to_str, htr, htr', exbind_ok_apply, hempty,
    Bool.false_eq_true, if_false]
  have hl1t1 : l1.length = t1.length := by omega
  rw [fillGrid_append hl1t1, fillGrid_append hl1t1]
  cases hfg : fillGrid rows cols
      (List.replicate rows (List.replicate cols (PyVal.str "1"))) l1 t1 with
  | error e => rfl
  | ok g' =>
    rw [exbind_ok_apply, exbind_ok_apply]
    rcases p with ⟨pr, pc⟩
    simp only [fillGrid]
    cases hr : npResolve rows pr with
    | none => rfl
    | some r =>
      cases hc : npResolve cols pc with
      | none => rfl
      | some c =>
        have hrlt : r < g'.length := by
          rw [fillGrid_ok_length hfg, List.length_replicate]
          exact npResolve_some_lt hr
        have hq' : ∃ q ∈ l2, npResolve rows q.1 = some r ∧
            npResolve cols q.2 = some c := by
          rcases hq with ⟨q, hqm, hq1, hq2⟩
          exact ⟨q, hqm, by rw [hq1, hr], by rw [hq2, hc]⟩
        have hcongr : fillGrid rows cols (setCell g' r c (PyVal.str ta)) l2 t2 =
            fillGrid rows cols (setCell g' r c (PyVal.str ta')) l2 t2 :=
          fillGrid_congr
            (eqExceptCell_setCell (PyVal.str ta) (PyVal.str ta') hrlt) hq'
        show (fillGrid rows cols (setCell g' r c (PyVal.str ta)) l2 t2 >>= _) =
          (fillGrid rows cols (setCell g' r c (PyVal.str ta')) l2 t2 >>= _)
        rw [hcongr]


/-- C4: last write wins, no accumulation.  First part: replacing the
value of an earlier entry whose (numpy-resolved) cell is written again by
a later entry of `indices` leaves the decode output unchanged — the
earlier-ordered duplicate does not determine the cell.  Second part: when
an entry is the last one (in input order) writing its resolved cell, the
filled grid holds exactly that entry's translated value at that cell. -/
theorem c4_last_write_wins :
    (∀ (ord_map : OrdMap) (char_dict : CharDict)
      (l1 l2 : List (Int × Int)) (p : Int × Int) (w1 w2 : List Int) (a a' : Int)
      (rows cols : Nat),
      w1.length = l1.length →
      (∃ s, ord_map.lookup a = some s) →
      (∃ s, ord_map.lookup a' = some s) →
      (∀ v ∈ w1, ∃ s, ord_map.lookup v = some s) →
      (∀ v ∈ w2, ∃ s, ord_map.lookup v = some s) →
      (∃ q ∈ l2, npResolve rows q.1 = npResolve rows p.1 ∧
        npResolve cols q.2 = npResolve cols p.2) →
      sparse_tensor_to_str ord_map char_dict
          (l1 ++ p :: l2) (w1 ++ a :: w2) rows cols =
        sparse_tensor_to_str ord_map char_dict
          (l1 ++ p :: l2) (w1 ++ a' :: w2) rows cols) ∧
    (∀ (rows cols : Nat) (l1 l2 : List (Int × Int)) (pr pc : Int)
      (t1 t2 : List String) (tv : String) (g g' : List (List PyVal)) (r c : Nat),
      l1.length = t1.length →
      g.length = rows →
      (∀ row ∈ g, row.length = cols) →
      npResolve rows pr = some r →
      npResolve cols pc = some c →
      (∀ q ∈ l2, ¬ (npResolve rows q.1 = some r ∧ npResolve cols q.2 = some c)) →
      fillGrid rows cols g (l1 ++ (pr, pc) :: l2) (t1 ++ tv :: t2) = .ok g' →
      cellAt g' r c = some (.str tv)) := by
  constructor
  · intro ord_map char_dict l1 l2 p w1 w2 a a' rows cols
      hlen ha ha' hw1 hw2 hq
    exact sparse_replace_earlier_dup ord_map char_dict l1 l2 p w1 w2 a a'
      rows cols hlen ha ha' hw1 hw2 hq
  · intro rows cols l1 l2 pr pc t1 t2 tv g g' r c
      hlen hglen hgrow hpr hpc hno hfill
    rw [fillGrid_append hlen] at hfill
    rcases exbind_ok.mp hfill with ⟨g1, hg1, hrest⟩
    simp only [fillGrid, hpr, hpc] at hrest
    have hg1len : g1.length = rows := by
      rw [fillGrid_ok_length hg1, hglen]
    have hrlt : r < g1.length := by
      rw [hg1len]
      exact npResolve_some_lt hpr
    have hclt : c < (g1.getD r []).length := by
      rw [fillGrid_ok_row_length hg1 r]
      have hrg : r < g.length := by
        rw [hglen]
        exact npResolve_some_lt hpr
      have : g.getD r [] = g[r] := by
        rw [List.getD_eq_getElem?_getD, List.getElem?_eq_getElem hrg]
        rfl
      rw [this, hgrow g[r] (List.getElem_mem hrg)]
      exact npResolve_some_lt hpc
    rw [fillGrid_cell_untouched hno hrest]
    exact setCell_cellAt_eq g1 (.str tv) hrlt hclt

/-- C4 witness: replacing the overwritten first value `0` by `2` leaves
the decode unchanged, and a single write of `"97"` into a 1×1 grid leaves
exactly `"97"` in its cell. -/
theorem c4_witness :
    (sparse_tensor_to_str exOrdMap exCharDict
        ([] ++ (0, 0) :: [(0, 0)]) ([] ++ 0 :: [2]) 1 1 =
      sparse_tensor_to_str exOrdMap exCharDict
        ([] ++ (0, 0) :: [(0, 0)]) ([] ++ 2 :: [2]) 1 1) ∧
    cellAt [[PyVal.str "97"]] 0 0 = some (.str "97") :=
  ⟨c4_last_write_wins.1 exOrdMap exCharDict [] [(0, 0)] (0, 0) [] [2] 0 2 1 1
      rfl ⟨"97", rfl⟩ ⟨"98", rfl⟩ (by intro v hv; cases hv)
      (by
        intro v hv
        have hv2 : v = 2 := List.mem_singleton.mp hv
        subst hv2
        exact ⟨"98", rfl⟩)
      ⟨(0, 0), by decide, by decide, by decide⟩,
    c4_last_write_wins.2 1 1 [] [] 0 0 [] [] "97" [[PyVal.str "1"]]
      [[PyVal.str "97"]] 0 0 rfl rfl
      (by
        intro row hrow
        have : row = [PyVal.str "1"] := List.mem_singleton.mp hrow
        rw [this]
        rfl)
      rfl rfl (by intro q hq; cases hq) rfl⟩
